import Mathlib

/-!
Shallow embedding of the fbuilder profile-builder core
(src/fbuilder/build_seccomp.c, build_profile.c, main.c and the unnamed
alternate entry point), together with theorems settling the frozen claims
about it.  Strings from the traced files are modelled as `List Char`
(C strings without their terminating NUL); files are lists of lines with
the trailing newline already stripped, matching the `fgets` + newline-chop
loop in the C code.  A file system is an association list from path names
to file contents; `none` on lookup models `fopen`/`stat` failure.
-/

/-! ## C character classification (ASCII, as used by the code) -/

/-- C `isspace` on the ASCII characters the trace files can contain. -/
def isSpaceC (c : Char) : Bool :=
  c = ' ' || c = '\t' || c = '\n' || c = '\x0b' || c = '\x0c' || c = '\r'

/-- C `isalnum(c) || c == '_'`: the characters of a syscall identifier. -/
def isIdentC (c : Char) : Bool :=
  c.isAlpha || c.isDigit || c = '_'

/-- C `strncmp(p, pfx, strlen(pfx)) == 0`: `pfx` is a leading run of `p`. -/
def hasPfx : List Char → List Char → Bool
  | [], _ => true
  | _ :: _, [] => false
  | c :: cs, d :: ds => c = d && hasPfx cs ds

/-- C `strchr(p, t)` followed by stepping past the found character:
the suffix of `p` strictly after the first occurrence of `t`,
or `none` when `t` does not occur. -/
def chrSuffix : List Char → Char → Option (List Char)
  | [], _ => none
  | c :: cs, t => if c = t then some cs else chrSuffix cs t

/-! ## Syscall Set Extractor (build_seccomp.c) -/

/-- `skip_pid_prefix` from build_seccomp.c: skip leading whitespace, and a
leading `[pid ...]` tag (recognised by the 4-character prefix `[pid`) up to
and past the closing `]` plus following whitespace; if no `]` is found the
position after the initial whitespace skip is kept. -/
def skipPidTag (line : List Char) : List Char :=
  let p := line.dropWhile isSpaceC
  if hasPfx (String.toList "[pid") p then
    match chrSuffix p ']' with
    | some afterRB => afterRB.dropWhile isSpaceC
    | none => p
  else p

/-- The copy loop of `extract_syscall_name`: copy identifier characters
while there is room (`i + 1 < outsz`, i.e. at most `room = outsz - 1`
characters), returning the copied name and the rest of the line from the
first uncopied character on. -/
def copyName : List Char → Nat → List Char × List Char
  | c :: cs, r + 1 =>
    if isIdentC c then
      let (nm, rest) := copyName cs r
      (c :: nm, rest)
    else ([], c :: cs)
  | p, _ => ([], p)

/-- The tail of `extract_syscall_name` after the copy loop: skip spaces,
require the next character to be `(` (`if (*p != '(') return 0` — an empty
rest is the NUL terminator, which is not `(`), then `return i > 0`. -/
def parenCheck (nr : List Char × List Char) : Option (List Char) :=
  match nr.2.dropWhile isSpaceC with
  | c2 :: _ =>
    if c2 = '(' then (if 0 < nr.1.length then some nr.1 else none) else none
  | [] => none

/-- `extract_syscall_name` after `skip_pid_prefix`, on the already
repositioned line `p`: discard tracer meta-output lines, require a leading
letter or underscore, copy at most `outsz - 1` identifier characters, then
apply the `(`-check. -/
def extractStage (p : List Char) (outsz : Nat) : Option (List Char) :=
  if hasPfx (String.toList "+++") p then none
  else if hasPfx (String.toList "---") p then none
  else if hasPfx (String.toList "strace:") p then none
  else if hasPfx (String.toList "Process ") p then none
  else
    match p with
    | [] => none
    | c :: _ =>
      if c.isAlpha || c = '_' then parenCheck (copyName p (outsz - 1))
      else none

/-- `extract_syscall_name` from build_seccomp.c, with output buffer size
`outsz` (the caller passes 128). -/
def extractSyscallName (line : List Char) (outsz : Nat) : Option (List Char) :=
  extractStage (skipPidTag line) outsz

/-- `add_unique` from build_seccomp.c: ignore empty names, names already
present, and any insertion once the array already holds `cap` names;
otherwise append.  The C function mutates `arr`/`n`; here the updated
array value is returned. -/
def addUnique (cap : Nat) (arr : List (List Char)) (s : List Char) :
    List (List Char) :=
  if s = [] then arr
  else if s ∈ arr then arr
  else if cap ≤ arr.length then arr
  else arr ++ [s]

/-- The capacity of the syscall array, `enum { CAP = 4096 }`. -/
def seccompCap : Nat := 4096

/-- The read loop of `build_seccomp`: for each line, extract a syscall
name (buffer size 128) and insert it with `add_unique`. -/
def seccompCollect (lines : List (List Char)) : List (List Char) :=
  lines.foldl
    (fun arr l =>
      match extractSyscallName l 128 with
      | some nm => addUnique seccompCap arr nm
      | none => arr)
    []

/-- The sequence of names the extractor accepts from the trace, in line
order (the successful `extract_syscall_name` results). -/
def acceptedList (lines : List (List Char)) : List (List Char) :=
  lines.filterMap (fun l => extractSyscallName l 128)

/-- C `strcmp` on the character lists (byte comparison; all characters in
play are ASCII, where `Char` order agrees with `unsigned char` order). -/
def strcmpL : List Char → List Char → Ordering
  | [], [] => .eq
  | [], _ :: _ => .lt
  | _ :: _, [] => .gt
  | a :: as, b :: bs =>
    if a < b then .lt else if b < a then .gt else strcmpL as bs

/-- The ascending-order comparator induced by `strcmp` via `qsort`
(`cmp_str` in build_seccomp.c): `a` sorts no later than `b`. -/
def strLeB (a b : List Char) : Bool := strcmpL a b ≠ Ordering.gt

/-- The `strcmp` order as a decidable relation. -/
def strLe (a b : List Char) : Prop := strLeB a b = true

instance : DecidableRel strLe := fun a b => decEq (strLeB a b) true

/-- The sorted name list `build_seccomp` emits: the collected names in
`strcmp` order (`qsort(syscalls, n, sizeof(char *), cmp_str)`); any
correct sort produces this list because the collected names are distinct
and the `strcmp` order is total. -/
def seccompNames (lines : List (List Char)) : List (List Char) :=
  (seccompCollect lines).insertionSort strLe

/-- The three suggestion comment lines emitted at the end of every
`build_seccomp` run. -/
def suggestLines : List String :=
  ["# Probably you will need to add more syscalls to seccomp.keep. Look for",
   "# seccomp errors in /var/log/syslog or /var/log/audit/audit.log while",
   "# running your sandbox."]

/-- The fallback block emitted when the trace file cannot be opened or
yields no syscall names. -/
def fallbackBlock : List String := "# 0 syscalls total" :: suggestLines

/-- The comma join of the emitted names (first name bare, later names
preceded by a comma). -/
def joinComma : List (List Char) → String
  | [] => ""
  | n :: ns => ns.foldl (fun acc m => acc ++ "," ++ String.mk m) (String.mk n)

/-- `build_seccomp` as a function from the (optional) opened trace file to
the emitted output lines: `none` models `fopen` failure. -/
def buildSeccompLines (file : Option (List (List Char))) : List String :=
  match file with
  | none => fallbackBlock
  | some lines =>
    let names := seccompNames lines
    if names.length = 0 then fallbackBlock
    else
      ("seccomp.keep " ++ joinComma names) ::
      ("# " ++ toString names.length ++ " syscalls total") :: suggestLines

/-! ## File system model -/

/-- A file: its lines, newline already stripped. -/
def CFile := List (List Char)

/-- A file-system state: association list from path to content.
`fsLookup` returning `none` models both `fopen` failure and `stat`
failure on that path. -/
def Fs := List (String × CFile)

def fsLookup : Fs → String → Option CFile
  | [], _ => none
  | (n, c) :: rest, name => if n = name then some c else fsLookup rest name

/-- `build_seccomp` applied through the file system (the `fopen` call). -/
def buildSeccompRun (fs : Fs) (fname : String) : List String :=
  buildSeccompLines (fsLookup fs fname)

/-! ## Network Protocol Detector (build_protocol / process_protocol) -/

/-- The six address families recognised by `process_protocol`. -/
inductive Fam
  | unixS | inet | inet6 | netlink | packet | bluetooth
deriving DecidableEq, Repr

/-- The six static observation flags of build_seccomp.c
(`unix_s`, `inet`, `inet6`, `netlink`, `packet`, `bluetooth`). -/
@[ext]
structure ProtFlags where
  unixS : Bool
  inet : Bool
  inet6 : Bool
  netlink : Bool
  packet : Bool
  bluetooth : Bool
deriving DecidableEq, Repr

/-- All six flags false: the state after the reset at the top of
`build_protocol`. -/
def protReset : ProtFlags :=
  ⟨false, false, false, false, false, false⟩

def ProtFlags.get (f : ProtFlags) : Fam → Bool
  | .unixS => f.unixS
  | .inet => f.inet
  | .inet6 => f.inet6
  | .netlink => f.netlink
  | .packet => f.packet
  | .bluetooth => f.bluetooth

def ProtFlags.set (f : ProtFlags) : Fam → ProtFlags
  | .unixS => { f with unixS := true }
  | .inet => { f with inet := true }
  | .inet6 => { f with inet6 := true }
  | .netlink => { f with netlink := true }
  | .packet => { f with packet := true }
  | .bluetooth => { f with bluetooth := true }

/-- The per-line parse of `process_protocol`: a line sets a flag exactly
when it is `<digits>:<anything>:socket <FAMILY> ...` — a leading digit
run, a `:`, then the suffix after the next `:` must start with the token
`socket ` followed by one of the six space-terminated family tokens. -/
def lineFam (line : List Char) : Option Fam :=
  match line with
  | [] => none
  | c :: _ =>
    if c.isDigit then
      match line.dropWhile Char.isDigit with
      | ':' :: p2 =>
        match chrSuffix p2 ':' with
        | some p3 =>
          if hasPfx (String.toList "socket ") p3 then
            let p4 := p3.drop 7
            if hasPfx (String.toList "AF_LOCAL ") p4 then some .unixS
            else if hasPfx (String.toList "AF_INET ") p4 then some .inet
            else if hasPfx (String.toList "AF_INET6 ") p4 then some .inet6
            else if hasPfx (String.toList "AF_NETLINK ") p4 then some .netlink
            else if hasPfx (String.toList "AF_PACKET ") p4 then some .packet
            else if hasPfx (String.toList "AF_BLUETOOTH ") p4 then some .bluetooth
            else none
          else none
        | none => none
      | _ => none
    else none

/-- One line's effect on the flag state. -/
def scanLine (f : ProtFlags) (line : List Char) : ProtFlags :=
  match lineFam line with
  | some fam => f.set fam
  | none => f

/-- The read loop of `process_protocol` over one opened file. -/
def scanFile (f : ProtFlags) (content : CFile) : ProtFlags :=
  content.foldl scanLine f

/-- The shard names `fname.1` … `fname.5` built with `asprintf`. -/
def shardName (fname : String) (i : Nat) : String :=
  fname ++ "." ++ toString i

/-- The protocol families line of `build_protocol`, in its fixed order:
`unix`, the `inet,inet6` pair, `netlink`, `packet`, `bluetooth`. -/
def protocolLine (f : ProtFlags) : String :=
  "protocol "
  ++ (if f.unixS then "unix," else "")
  ++ (if f.inet || f.inet6 then "inet,inet6," else "")
  ++ (if f.netlink then "netlink," else "")
  ++ (if f.packet then "packet," else "")
  ++ (if f.bluetooth then "bluetooth" else "")

/-- The finalize step of `build_protocol`: the protocol directive is
printed when any flag is set; the `net` flag becomes 1 inside that block
exactly when IPv4/IPv6, packet or bluetooth was seen; `net == 0` yields
`net none`, otherwise the commented interface line plus `netfilter`. -/
def emitProtocol (f : ProtFlags) : List String :=
  let anyF := f.unixS || f.inet || f.inet6 || f.netlink || f.packet || f.bluetooth
  let net := anyF && (f.inet || f.inet6 || f.packet || f.bluetooth)
  (if anyF then [protocolLine f] else [])
  ++ (if net then ["#net eth0", "netfilter"] else ["net none"])

/-- The flag state after `build_protocol`'s scanning phase: reset, scan the
primary file, then scan each of `fname.1` … `fname.5` that exists
(`stat == 0`).  Defined only after the primary file opened; the caller
handles the fatal open failure. -/
def finalProtFlags (fs : Fs) (content : CFile) (fname : String) : ProtFlags :=
  [1, 2, 3, 4, 5].foldl
    (fun fl i =>
      match fsLookup fs (shardName fname i) with
      | some c => scanFile fl c
      | none => fl)
    (scanFile protReset content)

/-- `build_protocol` with the pre-call values of the six static flags made
explicit as `init`.  The first statement of the function overwrites them
with zero (`unix_s = inet = ... = 0`), so `init` is dead — which is
exactly the reset contract the claims are about.  `process_protocol` on an
unopenable primary file prints a diagnostic and calls `exit(1)`, modelled
as `Except.error 1`. -/
def buildProtocolFrom (init : ProtFlags) (fs : Fs) (fname : String) :
    Except Nat (List String) :=
  let _ := init
  match fsLookup fs fname with
  | none => .error 1
  | some content => .ok (emitProtocol (finalProtFlags fs content fname))

/-- `build_protocol` as entered with arbitrary prior static-flag state
forgotten; the run result. -/
def buildProtocolRun (fs : Fs) (fname : String) : Except Nat (List String) :=
  buildProtocolFrom protReset fs fname

/-- The list of file contents `build_protocol` actually scans: the primary
content followed by the contents of the existing shards, in index order. -/
def scannedFiles (fs : Fs) (content : CFile) (fname : String) : List CFile :=
  content :: [1, 2, 3, 4, 5].filterMap (fun i => fsLookup fs (shardName fname i))

/-- Family `fam` was observed in some scanned line of some scanned file. -/
def obsB (fs : Fs) (content : CFile) (fname : String) (fam : Fam) : Bool :=
  (scannedFiles fs content fname).any
    (fun file => file.any (fun l => lineFam l = some fam))

/-- The test-vector file system of the specification: a primary file with
an IPv4 socket line and the shard `<primary>.1` with an IPv6 socket
line. -/
def exampleProtFs : Fs :=
  [("/tmp/fj", [String.toList "4:prog:socket AF_INET 0.0.0.0:80"]),
   ("/tmp/fj.1", [String.toList "5:prog:socket AF_INET6 ::1:80"])]

/-- The value the six static flags hold after one whole detector pass
(the state a later pass would start from). -/
def flagsAfterRun (fs : Fs) (fname : String) : ProtFlags :=
  match fsLookup fs fname with
  | none => protReset
  | some content => finalProtFlags fs content fname

/-! ## Supervised Execution Harness (build_profile.c) -/

/-- The externally visible process-control actions of `build_profile`'s
supervision phase, in program order.  `pollWait` is the non-blocking
`waitpid(child, &status, WNOHANG)`; `sleepMs` is `usleep`;
`sigTermGroup`/`sigKillGroup` are `kill(-pgid, SIGTERM/SIGKILL)`;
`waitBlocking` is `waitpid(child, &status, 0)`; `synthesize` marks the
unconditional policy-emission phase that follows the wait. -/
inductive HEvent
  | pollWait
  | sleepMs (n : Nat)
  | sigTermGroup
  | sigKillGroup
  | waitBlocking
  | synthesize
deriving DecidableEq, Repr

/-- `kill_process_group` from build_profile.c: SIGTERM to the group,
`usleep(250 * 1000)`, SIGKILL to the group. -/
def killGroupEvents : List HEvent :=
  [HEvent.sigTermGroup, HEvent.sleepMs 250, HEvent.sigKillGroup]

/-- The child's behaviour, abstracted: `none` — the child never
terminates on its own; `some t` — the child is reapable from `t`
milliseconds of elapsed wall-clock time on. -/
def childDone (childAt : Option Nat) (elapsedMs : Nat) : Bool :=
  match childAt with
  | none => false
  | some t => t ≤ elapsedMs

/-- The timeout poll loop of `build_profile` (`build_timeout > 0` branch),
as the list of events it performs.  Each iteration: non-blocking wait;
stop if the child was reaped; else if the elapsed wall-clock time has
reached the timeout, kill the process group (SIGTERM, 250 ms grace,
SIGKILL) and reap with a blocking wait; else sleep 100 ms and repeat.
`fuel` bounds the recursion; callers pass enough fuel that the `0` case is
never reached (the loop always terminates because `elapsed` grows by
100 ms per iteration toward the timeout). -/
def pollLoop (childAt : Option Nat) (timeoutMs : Nat) :
    Nat → Nat → List HEvent
  | _, 0 => []
  | elapsed, fuel + 1 =>
    HEvent.pollWait ::
      (if childDone childAt elapsed then []
       else if timeoutMs ≤ elapsed then
         killGroupEvents ++ [HEvent.waitBlocking]
       else HEvent.sleepMs 100 :: pollLoop childAt timeoutMs (elapsed + 100) fuel)

/-- The supervision phase of `build_profile`: the poll loop when a
positive timeout (in seconds) is configured, a single blocking wait
otherwise. -/
def superviseEvents (childAt : Option Nat) (timeoutSec : Nat) : List HEvent :=
  if 0 < timeoutSec then
    pollLoop childAt (timeoutSec * 1000) 0 (timeoutSec * 10 + 1)
  else [HEvent.waitBlocking]

/-- `build_profile` after the fork: supervise the child, then — in every
case — emit the policy (`synthesize`): the emission code follows the wait
unconditionally. -/
def buildProfileEvents (childAt : Option Nat) (timeoutSec : Nat) : List HEvent :=
  superviseEvents childAt timeoutSec ++ [HEvent.synthesize]

/-- `n` whole poll intervals: `pollWait` then a 100 ms sleep, repeated. -/
def pollPhase (n : Nat) : List HEvent :=
  (List.replicate n [HEvent.pollWait, HEvent.sleepMs 100]).flatten

/-! ### Scratch-artifact allocation (mkstemp)

`build_profile` allocates its two scratch files with
`mkstemp("/tmp/firejail-trace.XXXXXX")` / `mkstemp("/tmp/firejail-syscalls.XXXXXX")`,
closes the descriptors, and passes the paths to the wrapped command
without unlinking them.  `mkstemp` is libc: modelled at its interface as
an allocator that returns a path not currently in the file system and
atomically creates it (O_CREAT | O_EXCL).  The model realises freshness
by a name strictly longer than every existing one; the code realises it
by the randomised `XXXXXX` suffix. -/

/-- Length of the longest existing path name. -/
def maxNameLen (paths : List String) : Nat :=
  paths.foldr (fun s m => max s.length m) 0

/-- The fresh path `mkstemp` picks for `template`: some name not present
in `paths`. -/
def freshName (template : String) (paths : List String) : String :=
  template ++ String.mk (List.replicate (maxNameLen paths + 1) 'X')

/-- `mkstemp`: return the fresh path and the file system with that path
now existing (the call creates the file). -/
def mkstempM (template : String) (paths : List String) :
    String × List String :=
  let n := freshName template paths
  (n, n :: paths)

/-- The two artifact allocations at the top of `build_profile`, in order:
`trace_output` then `syscall_output`.  `fsAtSpawn` is the set of existing
paths at the moment the constructed command (which carries both paths)
is handed to fork/exec. -/
structure AllocResult where
  traceName : String
  syscallName : String
  fsAtSpawn : List String
deriving Repr

def allocArtifacts (paths : List String) : AllocResult :=
  let tr := mkstempM "/tmp/firejail-trace." paths
  let sy := mkstempM "/tmp/firejail-syscalls." tr.2
  ⟨tr.1, sy.1, sy.2⟩

/-! ## Entry points (main.c and the unnamed alternate main) -/

/-- The policy-document sink. -/
inductive Sink
  | stdout
  | file (name : List Char)
deriving DecidableEq, Repr

/-- Result of an entry point's argument scan: help requested (exit 0
without building), a fatal diagnostic (exit 1 — `build_profile` is never
reached, so no child is ever spawned), or a run with the chosen sink and
the program-and-arguments tail handed to `build_profile`. -/
inductive MainRes
  | helpExit
  | fatal
  | run (sink : Sink) (prog : List (List Char))
deriving DecidableEq, Repr

/-- The argument loop of main.c, over `argv` tokens as character lists.
`ex` is the set of existing paths (`access(path, F_OK) == 0`), `bad` the
set of paths `fopen(path, "w")` fails on.  On `--build=<f>` the loop
aborts if `f` exists, then if it cannot be opened; otherwise the sink
becomes that file.  Two-token `--caps.keep` / `--build-timeout` consume
their argument.  The first token not starting with `-` is the program;
any other `-` token is fatal; exhausting the arguments without finding a
program is fatal. -/
def mainLoopL (ex bad : List (List Char)) (sink : Sink) :
    List (List Char) → MainRes
  | [] => .fatal
  | a :: rest =>
    if a = String.toList "-h" ∨ a = String.toList "--help" ∨ a = String.toList "-?" then
      .helpExit
    else if a = String.toList "--debug" then mainLoopL ex bad sink rest
    else if a = String.toList "--appimage" then mainLoopL ex bad sink rest
    else if a = String.toList "--build" then mainLoopL ex bad sink rest
    else if hasPfx (String.toList "--build=") a then
      let f := a.drop 8
      if f ∈ ex then .fatal
      else if f ∈ bad then .fatal
      else mainLoopL ex bad (.file f) rest
    else if hasPfx (String.toList "--caps.keep=") a then mainLoopL ex bad sink rest
    else if a = String.toList "--caps.keep" then
      match rest with
      | [] => .fatal
      | _ :: rest2 => mainLoopL ex bad sink rest2
    else if hasPfx (String.toList "--build-timeout=") a then mainLoopL ex bad sink rest
    else if a = String.toList "--build-timeout" then
      match rest with
      | [] => .fatal
      | _ :: rest2 => mainLoopL ex bad sink rest2
    else if hasPfx (String.toList "-") a then .fatal
    else .run sink (a :: rest)

/-- The argument loop of the unnamed alternate entry point
(src/unnamed/part_000).  It tracks whether a `--build` form was seen
(`hb`); on `--build=<f>` it rejects an empty name and an unopenable name
(`bad`) but performs no existence check at all — its `fopen(f, "w")`
truncates an existing file.  `--` makes the next token the program.  A
program token found without `--build` having been seen is fatal (the
post-loop `!have_build` check). -/
def mainAltLoopL (bad : List (List Char)) (sink : Sink) (hb : Bool) :
    List (List Char) → MainRes
  | [] => .fatal
  | a :: rest =>
    if a = String.toList "--debug" then mainAltLoopL bad sink hb rest
    else if a = String.toList "--appimage" then mainAltLoopL bad sink hb rest
    else if a = String.toList "--build" then mainAltLoopL bad sink true rest
    else if hasPfx (String.toList "--build=") a then
      let f := a.drop 8
      if f = [] then .fatal
      else if f ∈ bad then .fatal
      else mainAltLoopL bad (.file f) true rest
    else if hasPfx (String.toList "--caps.keep=") a then mainAltLoopL bad sink hb rest
    else if a = String.toList "--caps.keep" then
      match rest with
      | [] => .fatal
      | _ :: rest2 => mainAltLoopL bad sink hb rest2
    else if hasPfx (String.toList "--build-timeout=") a then mainAltLoopL bad sink hb rest
    else if a = String.toList "--build-timeout" then
      match rest with
      | [] => .fatal
      | _ :: rest2 => mainAltLoopL bad sink hb rest2
    else if a = String.toList "--" then
      match rest with
      | [] => .fatal
      | p :: pr => if hb then .run sink (p :: pr) else .fatal
    else if hasPfx (String.toList "-") a then .fatal
    else if hb then .run sink (a :: rest)
    else .fatal

/-- The alternate entry point applied to a file-system view: `ex` (the
existing paths) is accepted for comparability with main.c but never
consulted — part_000 contains no `access` call. -/
def altMainRun (ex bad : List (List Char)) (args : List (List Char)) : MainRes :=
  let _ := ex
  mainAltLoopL bad Sink.stdout false args

/-- The first lines `build_profile` sends to its sink: a banner on
standard output (`if (fp == stdout) printf(banner)`), then the document
body. -/
def emitDoc (sink : Sink) (body : List String) : List String :=
  (if sink = Sink.stdout then ["--- Built profile begins after this line ---"] else [])
  ++ body

/-! ## Theorems -/

/-! ### C4 — the detector resets its flag state on every invocation -/

/-- C4 (confirmed): every `build_protocol` invocation overwrites all six
static flags with false before scanning, so its result is independent of
the flag state it is entered with; in particular a second pass entered
with the flags a first pass (over any other input) left behind behaves
exactly like a pass entered with all-false flags. -/
theorem protocol_reset_no_state_leak :
    (∀ (init1 init2 : ProtFlags) (fs : Fs) (fname : String),
      buildProtocolFrom init1 fs fname = buildProtocolFrom init2 fs fname)
    ∧ (∀ (fs1 : Fs) (f1 : String) (fs2 : Fs) (f2 : String),
      buildProtocolFrom (flagsAfterRun fs1 f1) fs2 f2 = buildProtocolRun fs2 f2) := by
  constructor
  · intro init1 init2 fs fname
    rfl
  · intro fs1 f1 fs2 f2
    rfl

/-! ### C5 — the fallback block (corrected: it has four lines, not three) -/

/-- C5 counterexample: at the concrete input "the trace file cannot be
opened", the emitted fallback block does not have three lines — the code
prints four comment lines (`# 0 syscalls total` plus three suggestion
lines), so the output is not a three-line block. -/
theorem fallback_block_not_three_lines :
    (buildSeccompLines none).length ≠ 3 := by
  decide

/-- C5 as amended (the block has four lines): if the trace file cannot be
opened, or it opens but yields zero accepted syscall names, the output is
exactly the four-line fallback comment block beginning
`# 0 syscalls total`, and no `seccomp.keep` directive is emitted. -/
theorem fallback_block_exact (file : Option (List (List Char)))
    (h : file = none ∨ ∃ lines, file = some lines ∧ seccompCollect lines = []) :
    buildSeccompLines file = fallbackBlock
    ∧ fallbackBlock.length = 4
    ∧ ∀ l ∈ buildSeccompLines file,
        hasPfx (String.toList "seccomp.keep") l.toList = false := by
  have hout : buildSeccompLines file = fallbackBlock := by
    rcases h with h | ⟨lines, hf, hc⟩
    · rw [h]
      rfl
    · rw [hf]
      show (if (seccompNames lines).length = 0 then fallbackBlock else _) = _
      have : seccompNames lines = [] := by
        unfold seccompNames
        rw [hc]
        simp
      rw [this]
      rfl
  refine ⟨hout, rfl, ?_⟩
  rw [hout]
  decide

/-- Witness for C5's amended theorem, at the open-failure input. -/
theorem fallback_block_exact_witness :
    buildSeccompLines none = fallbackBlock
    ∧ fallbackBlock.length = 4
    ∧ ∀ l ∈ buildSeccompLines none,
        hasPfx (String.toList "seccomp.keep") l.toList = false :=
  fallback_block_exact none (Or.inl rfl)

/-! ### C7 — unopenable primary protocol file is fatal, unlike the extractor -/

/-- C7 (confirmed): if the primary protocol-detection file cannot be
opened, `build_protocol` (via `process_protocol`) diagnoses and exits the
whole process with status 1, whereas `build_seccomp` on an unopenable
input degrades to the fallback comment block and returns normally. -/
theorem primary_protocol_open_failure_fatal (fs : Fs) (fname : String)
    (h : fsLookup fs fname = none) :
    buildProtocolRun fs fname = .error 1
    ∧ buildSeccompRun fs fname = fallbackBlock := by
  constructor
  · show buildProtocolFrom protReset fs fname = .error 1
    unfold buildProtocolFrom
    rw [h]
  · unfold buildSeccompRun
    rw [h]
    rfl

/-- Witness for C7 at the empty file system. -/
theorem primary_protocol_open_failure_fatal_witness :
    fsLookup [] "/tmp/firejail-trace.x" = none
    ∧ (buildProtocolRun [] "/tmp/firejail-trace.x" = .error 1
       ∧ buildSeccompRun [] "/tmp/firejail-trace.x" = fallbackBlock) :=
  ⟨rfl, primary_protocol_open_failure_fatal [] "/tmp/firejail-trace.x" rfl⟩

/-! ### C9 — scratch artifacts (corrected: they exist when passed) -/

/-- Every existing path is no longer than `maxNameLen`. -/
theorem length_le_maxNameLen {paths : List String} {s : String}
    (h : s ∈ paths) : s.length ≤ maxNameLen paths := by
  induction paths with
  | nil => cases h
  | cons p rest ih =>
    rcases List.mem_cons.mp h with rfl | h'
    · exact Nat.le_max_left _ _
    · exact le_trans (ih h') (Nat.le_max_right _ _)

/-- The path `mkstemp` picks is not an existing path: its name is unique
at creation time. -/
theorem freshName_not_mem (template : String) (paths : List String) :
    freshName template paths ∉ paths := by
  intro hmem
  have hlen := length_le_maxNameLen hmem
  have : (freshName template paths).length
      = template.length + (maxNameLen paths + 1) := by
    simp [freshName, String.length_append, String.length_mk]
  omega

/-- C9 counterexample: at the concrete initial state "no scratch files
exist yet", the syscall-trace artifact allocated by `build_profile` DOES
already exist at the moment its path is passed to the wrapped traced
program — `mkstemp` creates the file and `build_profile` never unlinks it
before the fork/exec, refuting the claim's "does not already exist". -/
theorem trace_artifact_exists_when_passed :
    (allocArtifacts []).traceName ∈ (allocArtifacts []).fsAtSpawn
    ∧ (allocArtifacts []).syscallName ∈ (allocArtifacts []).fsAtSpawn := by
  decide

/-- C9 as amended: for every run, each of the two scratch files has a name
that is unique (collides with no existing path, and the two artifacts
never collide with each other) at creation time, and each artifact exists
— freshly and exclusively created by `mkstemp`, rather than being absent —
at the moment the harness passes its path to the wrapped traced program as
an output target. -/
theorem trace_artifacts_fresh_and_created (paths : List String) :
    (allocArtifacts paths).traceName ∉ paths
    ∧ (allocArtifacts paths).syscallName ∉ paths
    ∧ (allocArtifacts paths).traceName ≠ (allocArtifacts paths).syscallName
    ∧ (allocArtifacts paths).traceName ∈ (allocArtifacts paths).fsAtSpawn
    ∧ (allocArtifacts paths).syscallName ∈ (allocArtifacts paths).fsAtSpawn := by
  have h1 := freshName_not_mem "/tmp/firejail-trace." paths
  have h2 := freshName_not_mem "/tmp/firejail-syscalls."
    (freshName "/tmp/firejail-trace." paths :: paths)
  have ht : (allocArtifacts paths).traceName
      = freshName "/tmp/firejail-trace." paths := rfl
  have hs : (allocArtifacts paths).syscallName
      = freshName "/tmp/firejail-syscalls."
          (freshName "/tmp/firejail-trace." paths :: paths) := rfl
  have hf : (allocArtifacts paths).fsAtSpawn
      = freshName "/tmp/firejail-syscalls."
          (freshName "/tmp/firejail-trace." paths :: paths)
        :: freshName "/tmp/firejail-trace." paths :: paths := rfl
  rw [ht, hs, hf]
  refine ⟨h1, fun hmem => h2 (List.mem_cons_of_mem _ hmem), ?_, ?_, ?_⟩
  · intro heq
    rw [← heq] at h2
    exact h2 (List.mem_cons_self _ _)
  · exact List.mem_cons_of_mem _ (List.mem_cons_self _ _)
  · exact List.mem_cons_self _ _

/-! ### C3 — timeout escalation sequence -/

/-- Unfolding the poll loop under the timeout: as long as the child is
never reapable at any poll the loop can reach, the loop performs some
number of `pollWait`/100 ms-sleep rounds and then, at the poll at which
the timeout has elapsed, the SIGTERM → 250 ms grace → SIGKILL escalation
followed by the blocking reap. -/
theorem pollLoop_timeout_shape (childAt : Option Nat) (timeoutMs : Nat) :
    ∀ (k e : Nat), timeoutMs ≤ e + 100 * k → e < timeoutMs + 100 →
    (∀ e', e' < timeoutMs + 100 → childDone childAt e' = false) →
    ∃ n, pollLoop childAt timeoutMs e (k + 1)
      = pollPhase n
        ++ HEvent.pollWait :: (killGroupEvents ++ [HEvent.waitBlocking]) := by
  intro k
  induction k with
  | zero =>
    intro e hk he hc
    refine ⟨0, ?_⟩
    show HEvent.pollWait ::
        (if childDone childAt e then []
         else if timeoutMs ≤ e then killGroupEvents ++ [HEvent.waitBlocking]
         else _) = _
    rw [hc e he]
    simp only [Bool.false_eq_true, if_false]
    rw [if_pos (by omega : timeoutMs ≤ e)]
    rfl
  | succ k ih =>
    intro e hk he hc
    by_cases hto : timeoutMs ≤ e
    · refine ⟨0, ?_⟩
      show HEvent.pollWait ::
          (if childDone childAt e then []
           else if timeoutMs ≤ e then killGroupEvents ++ [HEvent.waitBlocking]
           else _) = _
      rw [hc e he]
      simp only [Bool.false_eq_true, if_false]
      rw [if_pos hto]
      rfl
    · obtain ⟨n, hn⟩ := ih (e + 100) (by omega) (by omega) hc
      refine ⟨n + 1, ?_⟩
      show HEvent.pollWait ::
          (if childDone childAt e then []
           else if timeoutMs ≤ e then killGroupEvents ++ [HEvent.waitBlocking]
           else HEvent.sleepMs 100 :: pollLoop childAt timeoutMs (e + 100) (k + 1)) = _
      rw [hc e he]
      simp only [Bool.false_eq_true, if_false]
      rw [if_neg hto, hn]
      show HEvent.pollWait :: HEvent.sleepMs 100 :: (pollPhase n ++ _)
        = pollPhase (n + 1) ++ _
      rw [show pollPhase (n + 1)
          = HEvent.pollWait :: HEvent.sleepMs 100 :: pollPhase n from rfl]
      rfl

/-- C3 (confirmed): with a positive configured timeout and a child that is
not reapable at any poll the loop can reach before and including the
timeout expiry (in particular a child that never terminates on its own),
`build_profile` performs, in order: some number of non-blocking polls
separated by 100 ms sleeps, one SIGTERM to the whole process group, a
250 ms grace sleep, one SIGKILL to the whole process group, and a blocking
reaping wait; and for every child behaviour and every timeout value
(normal exit, signal, or forced kill) the event trace ends with the
unconditional policy-synthesis phase. -/
theorem timeout_escalation_sequence (childAt : Option Nat) (timeoutSec : Nat)
    (hpos : 0 < timeoutSec)
    (hc : ∀ e', e' < timeoutSec * 1000 + 100 → childDone childAt e' = false) :
    (∃ n, buildProfileEvents childAt timeoutSec
      = pollPhase n
        ++ HEvent.pollWait
          :: (killGroupEvents ++ [HEvent.waitBlocking, HEvent.synthesize]))
    ∧ ∀ (c : Option Nat) (t : Nat),
        (buildProfileEvents c t).getLast? = some HEvent.synthesize := by
  constructor
  · obtain ⟨n, hn⟩ := pollLoop_timeout_shape childAt (timeoutSec * 1000)
      (timeoutSec * 10) 0 (by omega) (by omega) hc
    refine ⟨n, ?_⟩
    unfold buildProfileEvents superviseEvents
    rw [if_pos hpos]
    rw [show timeoutSec * 10 + 1 = timeoutSec * 10 + 1 from rfl, hn]
    simp [killGroupEvents]
  · intro c t
    unfold buildProfileEvents
    exact List.getLast?_concat _

/-- Witness for C3 at timeout 1 s and a never-terminating child. -/
theorem timeout_escalation_sequence_witness :
    (0 < 1 ∧ ∀ e', e' < 1 * 1000 + 100 → childDone none e' = false)
    ∧ ((∃ n, buildProfileEvents none 1
        = pollPhase n
          ++ HEvent.pollWait
            :: (killGroupEvents ++ [HEvent.waitBlocking, HEvent.synthesize]))
       ∧ ∀ (c : Option Nat) (t : Nat),
          (buildProfileEvents c t).getLast? = some HEvent.synthesize) :=
  ⟨⟨by decide, fun _ _ => rfl⟩,
    timeout_escalation_sequence none 1 (by decide) (fun _ _ => rfl)⟩

/-! ### C2 — the emitted seccomp.keep list is sorted and duplicate-free -/

theorem strcmpL_eq_iff : ∀ a b : List Char, strcmpL a b = Ordering.eq ↔ a = b := by
  intro a
  induction a with
  | nil =>
    intro b
    cases b <;> simp [strcmpL]
  | cons x xs ih =>
    intro b
    cases b with
    | nil => simp [strcmpL]
    | cons y ys =>
      unfold strcmpL
      rcases lt_trichotomy x y with h | h | h
      · rw [if_pos h]
        simp only [List.cons.injEq]
        constructor
        · intro hc
          cases hc
        · rintro ⟨rfl, -⟩
          exact absurd h (lt_irrefl x)
      · subst h
        rw [if_neg (lt_irrefl x), if_neg (lt_irrefl x)]
        simp [ih]
      · rw [if_neg (not_lt.mpr (le_of_lt h)), if_pos h]
        simp only [List.cons.injEq]
        constructor
        · intro hc
          cases hc
        · rintro ⟨rfl, -⟩
          exact absurd h (lt_irrefl x)

theorem strLeB_antisymm : ∀ a b : List Char,
    strLeB a b = true → strLeB b a = true → a = b := by
  intro a
  induction a with
  | nil =>
    intro b
    cases b with
    | nil => intro _ _; rfl
    | cons y ys =>
      intro _ h2
      simp [strLeB, strcmpL] at h2
  | cons x xs ih =>
    intro b
    cases b with
    | nil =>
      intro h1 _
      simp [strLeB, strcmpL] at h1
    | cons y ys =>
      intro h1 h2
      rcases lt_trichotomy x y with h | h | h
      · exfalso
        have : strcmpL (y :: ys) (x :: xs) = Ordering.gt := by
          unfold strcmpL
          rw [if_neg (not_lt.mpr (le_of_lt h)), if_pos h]
        simp [strLeB, this] at h2
      · subst h
        have h1' : strLeB xs ys = true := by
          simpa [strLeB, strcmpL, lt_irrefl] using h1
        have h2' : strLeB ys xs = true := by
          simpa [strLeB, strcmpL, lt_irrefl] using h2
        rw [ih ys h1' h2']
      · exfalso
        have : strcmpL (x :: xs) (y :: ys) = Ordering.gt := by
          unfold strcmpL
          rw [if_neg (not_lt.mpr (le_of_lt h)), if_pos h]
        simp [strLeB, this] at h1

theorem strLeB_trans : ∀ a b c : List Char,
    strLeB a b = true → strLeB b c = true → strLeB a c = true := by
  intro a
  induction a with
  | nil =>
    intro b c _ _
    cases c <;> simp [strLeB, strcmpL]
  | cons x xs ih =>
    intro b c h1 h2
    cases b with
    | nil =>
      simp [strLeB, strcmpL] at h1
    | cons y ys =>
      cases c with
      | nil =>
        simp [strLeB, strcmpL] at h2
      | cons z zs =>
        unfold strLeB strcmpL at h1 h2 ⊢
        rcases lt_trichotomy x y with hxy | hxy | hxy
        · rcases lt_trichotomy y z with hyz | hyz | hyz
          · rw [if_pos (lt_trans hxy hyz)]
            simp
          · subst hyz
            rw [if_pos hxy]
            simp
          · rw [if_neg (not_lt.mpr (le_of_lt hyz)), if_pos hyz] at h2
            simp at h2
        · subst hxy
          rcases lt_trichotomy x z with hyz | hyz | hyz
          · rw [if_pos hyz]
            simp
          · subst hyz
            rw [if_neg (lt_irrefl x), if_neg (lt_irrefl x)] at h1 h2 ⊢
            exact ih ys zs h1 h2
          · rw [if_neg (not_lt.mpr (le_of_lt hyz)), if_pos hyz] at h2
            simp at h2
        · rw [if_neg (not_lt.mpr (le_of_lt hxy)), if_pos hxy] at h1
          simp at h1

theorem strLeB_total : ∀ a b : List Char,
    (strLeB a b || strLeB b a) = true := by
  intro a
  induction a with
  | nil =>
    intro b
    cases b <;> simp [strLeB, strcmpL]
  | cons x xs ih =>
    intro b
    cases b with
    | nil => simp [strLeB, strcmpL]
    | cons y ys =>
      unfold strLeB strcmpL
      rcases lt_trichotomy x y with h | h | h
      · simp [h]
      · subst h
        simp only [lt_irrefl, if_false]
        exact ih ys
      · simp [h, (le_of_lt h).not_lt]

/-- `add_unique` never introduces a duplicate. -/
theorem addUnique_nodup {cap : Nat} {arr : List (List Char)} {s : List Char}
    (h : arr.Nodup) : (addUnique cap arr s).Nodup := by
  unfold addUnique
  split
  · exact h
  · split
    · exact h
    · split
      · exact h
      · rename_i hne hmem hcap
        simpa [List.nodup_append, h] using hmem

/-- The collected syscall array is duplicate-free. -/
theorem seccompCollect_nodup (lines : List (List Char)) :
    (seccompCollect lines).Nodup := by
  unfold seccompCollect
  generalize hacc : ([] : List (List Char)) = acc
  have hn : acc.Nodup := hacc ▸ List.nodup_nil
  clear hacc
  induction lines generalizing acc with
  | nil => exact hn
  | cons l rest ih =>
    simp only [List.foldl_cons]
    apply ih
    cases extractSyscallName l 128 with
    | none => exact hn
    | some nm => exact addUnique_nodup hn

/-- C2 (confirmed): for every trace input the emitted `seccomp.keep` name
list is sorted in the `strcmp` (lexicographic byte) order and contains no
duplicates; the output depends only on the set of collected names and not
on the order they were inserted in (any two inputs whose collected name
arrays are permutations of one another produce identical output); and the
two-line trace `[pid 100] openat(3, ...)` / `openat(4, ...)` yields the
single name `openat`. -/
theorem seccomp_keep_sorted_nodup :
    (∀ lines, List.Sorted strLe (seccompNames lines)
      ∧ (seccompNames lines).Nodup)
    ∧ (∀ l1 l2, (seccompCollect l1).Perm (seccompCollect l2) →
        seccompNames l1 = seccompNames l2)
    ∧ seccompNames [String.toList "[pid 100] openat(3, ...)",
        String.toList "openat(4, ...)"] = [String.toList "openat"] := by
  haveI : IsTotal (List Char) strLe :=
    ⟨fun a b => Bool.or_eq_true_iff.mp (strLeB_total a b)⟩
  haveI : IsTrans (List Char) strLe :=
    ⟨fun a b c => strLeB_trans a b c⟩
  haveI : IsAntisymm (List Char) strLe :=
    ⟨fun a b => strLeB_antisymm a b⟩
  refine ⟨fun lines => ⟨List.sorted_insertionSort strLe _, ?_⟩, ?_, by decide⟩
  · exact (List.perm_insertionSort strLe _).symm.nodup
      (seccompCollect_nodup lines)
  · intro l1 l2 h
    exact List.eq_of_perm_of_sorted
      ((List.perm_insertionSort strLe _).trans
        (h.trans (List.perm_insertionSort strLe _).symm))
      (List.sorted_insertionSort strLe _)
      (List.sorted_insertionSort strLe _)

/-- Witness for C2's permutation-invariance part: the traces
`openat(1)` and `[pid 100] openat(3, ...)` / `openat(4, ...)` collect
permutation-equal name arrays and therefore emit the same sorted list. -/
theorem seccomp_keep_sorted_nodup_witness :
    (seccompCollect [String.toList "openat(1)"]).Perm
      (seccompCollect [String.toList "[pid 100] openat(3, ...)",
        String.toList "openat(4, ...)"])
    ∧ seccompNames [String.toList "openat(1)"]
      = seccompNames [String.toList "[pid 100] openat(3, ...)",
          String.toList "openat(4, ...)"] :=
  ⟨by decide, seccomp_keep_sorted_nodup.2.1 _ _ (by decide)⟩

/-! ### C6 — the 4096-name capacity -/

/-- The `(`-check succeeds only with the copied name, and only when the
copy loop copied at least one character. -/
theorem parenCheck_some {nr : List Char × List Char} {nm : List Char}
    (h : parenCheck nr = some nm) : nm = nr.1 ∧ 0 < nr.1.length := by
  unfold parenCheck at h
  split at h
  · split at h
    · split at h
      · rename_i hlen
        exact ⟨(Option.some.inj h).symm, hlen⟩
      · exact Option.noConfusion h
    · exact Option.noConfusion h
  · exact Option.noConfusion h

/-- A successful extraction returns exactly the copy-loop output, which is
nonempty. -/
theorem extractStage_some {p : List Char} {o : Nat} {nm : List Char}
    (h : extractStage p o = some nm) :
    nm = (copyName p (o - 1)).1 ∧ 0 < nm.length := by
  unfold extractStage at h
  split at h
  · exact Option.noConfusion h
  split at h
  · exact Option.noConfusion h
  split at h
  · exact Option.noConfusion h
  split at h
  · exact Option.noConfusion h
  split at h
  · exact Option.noConfusion h
  · split at h
    · obtain ⟨h1, h2⟩ := parenCheck_some h
      exact ⟨h1, h1 ▸ h2⟩
    · exact Option.noConfusion h

/-- A name the extractor returns is never empty (the code requires
`i > 0`). -/
theorem extract_some_length_pos {l : List Char} {o : Nat} {nm : List Char}
    (h : extractSyscallName l o = some nm) : 0 < nm.length :=
  (extractStage_some h).2

/-- The read loop is the fold of `add_unique` over the accepted names. -/
theorem seccompCollect_eq_foldl (lines : List (List Char)) :
    seccompCollect lines
      = (acceptedList lines).foldl (addUnique seccompCap) [] := by
  unfold seccompCollect acceptedList
  generalize ([] : List (List Char)) = acc
  induction lines generalizing acc with
  | nil => rfl
  | cons l rest ih =>
    simp only [List.foldl_cons, List.filterMap_cons]
    cases h : extractSyscallName l 128 with
    | none => rw [ih]
    | some nm =>
      simp only [List.foldl_cons]
      rw [ih]

/-- The length of the `add_unique` fold: starting from a duplicate-free
array not over capacity and inserting only nonempty names, the final
length is the number of distinct new names, truncated at the capacity. -/
theorem foldl_addUnique_length (cap : Nat) :
    ∀ (names : List (List Char)) (acc : List (List Char)),
    (∀ s ∈ names, s ≠ []) → acc.Nodup → acc.length ≤ cap →
    (names.foldl (addUnique cap) acc).length
      = min (acc.length
          + ((names.filter (fun s => decide (s ∉ acc))).toFinset.card)) cap := by
  intro names
  induction names with
  | nil =>
    intro acc _ _ hle
    simp [Nat.min_eq_left hle]
  | cons s rest ih =>
    intro acc hne hnd hle
    have hs : s ≠ [] := hne s (List.mem_cons_self s rest)
    have hrest : ∀ x ∈ rest, x ≠ [] := fun x hx => hne x (List.mem_cons_of_mem s hx)
    simp only [List.foldl_cons]
    by_cases hmem : s ∈ acc
    · have hstep : addUnique cap acc s = acc := by
        unfold addUnique
        rw [if_neg hs, if_pos hmem]
      rw [hstep, ih acc hrest hnd hle]
      have hfil : (s :: rest).filter (fun x => decide (x ∉ acc))
          = rest.filter (fun x => decide (x ∉ acc)) := by
        simp [List.filter_cons, hmem]
      rw [hfil]
    · by_cases hcap : cap ≤ acc.length
      · have hacc : acc.length = cap := le_antisymm hle hcap
        have hstep : addUnique cap acc s = acc := by
          unfold addUnique
          rw [if_neg hs, if_neg hmem, if_pos hcap]
        rw [hstep, ih acc hrest hnd hle, hacc]
        omega
      · have hstep : addUnique cap acc s = acc ++ [s] := by
          unfold addUnique
          rw [if_neg hs, if_neg hmem, if_neg hcap]
        have hnd' : (acc ++ [s]).Nodup := by
          simpa [List.nodup_append] using ⟨hnd, hmem⟩
        have hle' : (acc ++ [s]).length ≤ cap := by
          simp only [List.length_append, List.length_cons, List.length_nil]
          omega
        rw [hstep, ih (acc ++ [s]) hrest hnd' hle']
        have hfil : (s :: rest).filter (fun x => decide (x ∉ acc))
            = s :: rest.filter (fun x => decide (x ∉ acc)) := by
          simp [List.filter_cons, hmem]
        rw [hfil]
        have hsetB : (rest.filter (fun x => decide (x ∉ acc ++ [s]))).toFinset
            = ((rest.filter (fun x => decide (x ∉ acc))).toFinset).erase s := by
          ext x
          simp only [List.mem_toFinset, List.mem_filter, Finset.mem_erase,
            List.mem_append, List.mem_singleton, decide_eq_true_eq]
          constructor
          · rintro ⟨hxr, hx⟩
            push_neg at hx
            exact ⟨hx.2, hxr, hx.1⟩
          · rintro ⟨hxs, hxr, hxa⟩
            exact ⟨hxr, by push_neg; exact ⟨hxa, hxs⟩⟩
        rw [hsetB]
        set A := (rest.filter (fun x => decide (x ∉ acc))).toFinset with hA
        have hcardA : (insert s A).card = (A.erase s).card + 1 := by
          by_cases hsA : s ∈ A
          · rw [Finset.card_erase_add_one hsA, Finset.card_insert_of_mem hsA]
          · rw [Finset.erase_eq_of_not_mem hsA, Finset.card_insert_of_not_mem hsA]
        simp only [List.toFinset_cons, List.length_append, List.length_cons,
          List.length_nil]
        rw [hcardA]
        omega

/-- C6 (confirmed): the collected syscall-name set never exceeds 4096
names — its size is exactly the number of distinct accepted names,
truncated at 4096, so with more than 4096 distinct names exactly 4096 are
kept; the emitted (sorted) list has the same length; and once the array
holds 4096 names, `add_unique` returns it unchanged for every further
name — extraction never fails, it silently drops. -/
theorem syscall_set_capped_at_4096 :
    (∀ lines, (seccompCollect lines).length
      = min ((acceptedList lines).toFinset.card) seccompCap)
    ∧ (∀ lines, (seccompNames lines).length ≤ seccompCap)
    ∧ (∀ arr s, seccompCap ≤ arr.length → addUnique seccompCap arr s = arr) := by
  have hmain : ∀ lines, (seccompCollect lines).length
      = min ((acceptedList lines).toFinset.card) seccompCap := by
    intro lines
    rw [seccompCollect_eq_foldl]
    have hne : ∀ s ∈ acceptedList lines, s ≠ [] := by
      intro s hs
      obtain ⟨l, -, hl⟩ := List.mem_filterMap.mp hs
      exact List.ne_nil_of_length_pos (extract_some_length_pos hl)
    have := foldl_addUnique_length seccompCap (acceptedList lines) []
      hne List.nodup_nil (Nat.zero_le _)
    simpa using this
  refine ⟨hmain, fun lines => ?_, fun arr s hcap => ?_⟩
  · have hperm := List.perm_insertionSort strLe (seccompCollect lines)
    rw [show (seccompNames lines).length = (seccompCollect lines).length from
      hperm.length_eq]
    rw [hmain lines]
    exact Nat.min_le_right _ _
  · by_cases h1 : s = []
    · simp [addUnique, h1]
    · by_cases h2 : s ∈ arr
      · simp [addUnique, h1, h2]
      · simp [addUnique, h1, h2, hcap]

/-- Witness for C6's capacity part: a full 4096-element array is returned
unchanged by `add_unique`. -/
theorem syscall_set_capped_at_4096_witness :
    seccompCap ≤ (List.replicate 4096 [' ']).length
    ∧ addUnique seccompCap (List.replicate 4096 [' ']) (String.toList "openat")
      = List.replicate 4096 [' '] := by
  have hcap : seccompCap ≤ (List.replicate 4096 ([' '] : List Char)).length := by
    rw [List.length_replicate]
    exact Nat.le_refl 4096
  exact ⟨hcap, syscall_set_capped_at_4096.2.2 _ _ hcap⟩

/-! ### C10 — identifier runs longer than 127 characters are discarded -/

/-- The copy loop, closed form: it copies the first `r` characters of the
leading identifier run and leaves the line positioned after them. -/
theorem copyName_eq : ∀ (p : List Char) (r : Nat),
    copyName p r = ((p.takeWhile isIdentC).take r,
      p.drop (min r (p.takeWhile isIdentC).length)) := by
  intro p
  induction p with
  | nil =>
    intro r
    simp [copyName]
  | cons c cs ih =>
    intro r
    cases r with
    | zero => simp [copyName]
    | succ r =>
      by_cases hc : isIdentC c
      · have step : copyName (c :: cs) (r + 1)
            = (c :: (copyName cs r).1, (copyName cs r).2) := by
          simp [copyName, hc]
        rw [step, ih r]
        simp [List.takeWhile_cons, hc, Nat.succ_min_succ]
      · simp [copyName, hc, List.takeWhile_cons]

/-- An identifier character is not a space. -/
theorem isIdentC_not_space {c : Char} (h : isIdentC c = true) :
    isSpaceC c = false := by
  by_contra hs
  have hs' : isSpaceC c = true := by
    revert hs
    cases isSpaceC c <;> simp
  unfold isSpaceC at hs'
  simp only [Bool.or_eq_true, decide_eq_true_eq] at hs'
  rcases hs' with ((((h1 | h1) | h1) | h1) | h1) | h1 <;> subst h1 <;>
    exact absurd h (by decide)

/-- When the leading identifier run of `q` is longer than the 127
characters the copy loop can hold, the loop stops mid-identifier; the
next character is an identifier character, not `(`, so the `(`-check
rejects the line. -/
theorem parenCheck_copyName_long {q : List Char}
    (h127 : 127 < (q.takeWhile isIdentC).length) :
    parenCheck (copyName q (128 - 1)) = none := by
  have hL : 127 ≤ (q.takeWhile isIdentC).length := le_of_lt h127
  have hlen : 127 < q.length :=
    lt_of_lt_of_le h127 (List.takeWhile_sublist isIdentC).length_le
  have hdrop : (copyName q (128 - 1)).2 = q.drop 127 := by
    rw [copyName_eq]
    have hm : min (128 - 1) (q.takeWhile isIdentC).length = 127 :=
      Nat.min_eq_left hL
    rw [hm]
  have hget : (q.takeWhile isIdentC)[127] = q[127] :=
    (List.takeWhile_prefix isIdentC).getElem h127
  have hident : isIdentC q[127] = true := by
    rw [← hget]
    exact List.mem_takeWhile_imp (List.getElem_mem h127)
  have hdropc : q.drop 127 = q[127] :: q.drop 128 :=
    List.drop_eq_getElem_cons hlen
  have hne : q[127] ≠ '(' := by
    intro hx
    rw [hx] at hident
    exact absurd hident (by decide)
  unfold parenCheck
  rw [hdrop, hdropc, List.dropWhile_cons, isIdentC_not_space hident]
  simp only [Bool.false_eq_true, if_false]
  show (if q[127] = '(' then
      (if 0 < (copyName q (128 - 1)).1.length then some (copyName q (128 - 1)).1
       else none)
    else none) = none
  rw [if_neg hne]

/-- The whole extraction stage rejects a line whose leading identifier
run is longer than 127 characters. -/
theorem extractStage_long_none (p : List Char)
    (h127 : 127 < (p.takeWhile isIdentC).length) :
    extractStage p 128 = none := by
  rcases p with _ | ⟨c, tail⟩
  · simp at h127
  · unfold extractStage
    split
    · rfl
    split
    · rfl
    split
    · rfl
    split
    · rfl
    by_cases halpha : (c.isAlpha || c = '_') = true
    · show (if c.isAlpha || c = '_' then
          parenCheck (copyName (c :: tail) (128 - 1)) else none) = none
      rw [if_pos halpha]
      exact parenCheck_copyName_long h127
    · show (if c.isAlpha || c = '_' then
          parenCheck (copyName (c :: tail) (128 - 1)) else none) = none
      rw [if_neg halpha]

/-- C10 (confirmed): a line whose leading identifier run (after the
pid-tag and whitespace skips) is longer than 127 characters is silently
discarded — the 128-byte name buffer keeps at most 127 characters, the
scan stops mid-identifier, the next character is an identifier character
rather than `(`, and `extract_syscall_name` rejects the line; moreover any
name the extractor does return has at most 127 characters. -/
theorem long_identifier_line_discarded :
    (∀ line, 127 < ((skipPidTag line).takeWhile isIdentC).length →
      extractSyscallName line 128 = none)
    ∧ ∀ line nm, extractSyscallName line 128 = some nm → nm.length ≤ 127 := by
  constructor
  · intro line h127
    show extractStage (skipPidTag line) 128 = none
    exact extractStage_long_none _ h127
  · intro line nm h
    have h' : extractStage (skipPidTag line) 128 = some nm := h
    obtain ⟨h1, -⟩ := extractStage_some h'
    rw [h1, copyName_eq]
    simp only [List.length_take]
    omega

set_option maxRecDepth 4096 in
/-- Witness for C10 at a 128-character identifier followed by `(`. -/
theorem long_identifier_line_discarded_witness :
    127 < ((skipPidTag (List.replicate 128 'a' ++ ['('])).takeWhile
        isIdentC).length
    ∧ extractSyscallName (List.replicate 128 'a' ++ ['(']) 128 = none :=
  ⟨by decide, long_identifier_line_discarded.1 _ (by decide)⟩

/-! ### C1 — the protocol directive and the net decision -/

theorem protReset_get (fam : Fam) : protReset.get fam = false := by
  cases fam <;> rfl

theorem ProtFlags_get_set (f : ProtFlags) (g fam : Fam) :
    (f.set g).get fam = (decide (fam = g) || f.get fam) := by
  cases g <;> cases fam <;> simp [ProtFlags.set, ProtFlags.get]

theorem scanLine_get (f : ProtFlags) (l : List Char) (fam : Fam) :
    (scanLine f l).get fam
      = (f.get fam || decide (lineFam l = some fam)) := by
  unfold scanLine
  cases hl : lineFam l with
  | none => simp
  | some g =>
    rw [ProtFlags_get_set]
    by_cases hfg : fam = g
    · subst hfg
      simp
    · have : ¬ (some g = some fam) := by
        intro hc
        exact hfg (Option.some.inj hc).symm
      simp [hfg, this]

theorem scanFile_get (f : ProtFlags) (content : CFile) (fam : Fam) :
    (scanFile f content).get fam
      = (f.get fam
        || content.any (fun l => lineFam l = some fam)) := by
  induction content generalizing f with
  | nil =>
    show (scanFile f []).get fam = _
    simp [scanFile]
  | cons l ls ih =>
    show (scanFile (scanLine f l) ls).get fam = _
    rw [ih, scanLine_get]
    simp [List.any_cons, Bool.or_assoc]

theorem foldShards_get (fs : Fs) (fname : String) :
    ∀ (idxs : List Nat) (f : ProtFlags) (fam : Fam),
    (idxs.foldl (fun fl i =>
        match fsLookup fs (shardName fname i) with
        | some c => scanFile fl c
        | none => fl) f).get fam
      = (f.get fam
        || (idxs.filterMap (fun i => fsLookup fs (shardName fname i))).any
            (fun file => file.any (fun l => lineFam l = some fam))) := by
  intro idxs
  induction idxs with
  | nil =>
    intro f fam
    simp
  | cons i rest ih =>
    intro f fam
    simp only [List.foldl_cons, List.filterMap_cons]
    cases hi : fsLookup fs (shardName fname i) with
    | none =>
      exact ih f fam
    | some c =>
      rw [ih, scanFile_get]
      simp [List.any_cons, Bool.or_assoc]

theorem finalProtFlags_get (fs : Fs) (content : CFile) (fname : String)
    (fam : Fam) :
    (finalProtFlags fs content fname).get fam = obsB fs content fname fam := by
  unfold finalProtFlags
  rw [foldShards_get, scanFile_get, protReset_get]
  unfold obsB scannedFiles
  simp [List.any_cons]

/-- The facts about the finalize step of `build_protocol`, for every flag
state: `net none` is emitted exactly when no routable family flag is set;
a `protocol ` directive is emitted exactly when some flag is set; with a
routable flag set, the commented interface line and the `netfilter`
directive are both emitted. -/
theorem emitProtocol_cases (f : ProtFlags) :
    (("net none" ∈ emitProtocol f)
      ↔ (f.inet || f.inet6 || f.packet || f.bluetooth) = false)
    ∧ ((emitProtocol f).any
        (fun l => hasPfx (String.toList "protocol ") l.toList)
      = (f.unixS || f.inet || f.inet6 || f.netlink || f.packet || f.bluetooth))
    ∧ ((f.inet || f.inet6 || f.packet || f.bluetooth) = true →
        "netfilter" ∈ emitProtocol f ∧ "#net eth0" ∈ emitProtocol f) := by
  rcases f with ⟨u, i, i6, nl, pk, bt⟩
  cases u <;> cases i <;> cases i6 <;> cases nl <;> cases pk <;> cases bt <;>
    exact (by decide)

/-- C1 (confirmed): after resetting and scanning the primary file and
every existing shard `<primary>.1` … `<primary>.5`, the detector's output
is exactly the finalize step applied to the per-family observation
booleans: the `protocol` directive (in the fixed order unix, the
`inet,inet6` pair, netlink, packet, bluetooth) appears iff some family
was observed, `net none` appears iff no routable family (IPv4, IPv6,
packet, bluetooth) was observed, and otherwise the commented interface
line plus an active `netfilter` directive appear instead; on the
specification's test vector the output is `protocol inet,inet6,`,
`#net eth0`, `netfilter`. -/
theorem protocol_output_matches_observations (fs : Fs) (fname : String)
    (content : CFile) (h : fsLookup fs fname = some content) :
    buildProtocolRun fs fname = .ok (emitProtocol
      { unixS := obsB fs content fname .unixS
        inet := obsB fs content fname .inet
        inet6 := obsB fs content fname .inet6
        netlink := obsB fs content fname .netlink
        packet := obsB fs content fname .packet
        bluetooth := obsB fs content fname .bluetooth })
    ∧ (∀ f : ProtFlags,
        (("net none" ∈ emitProtocol f)
          ↔ (f.inet || f.inet6 || f.packet || f.bluetooth) = false)
        ∧ ((emitProtocol f).any
            (fun l => hasPfx (String.toList "protocol ") l.toList)
          = (f.unixS || f.inet || f.inet6 || f.netlink || f.packet
              || f.bluetooth))
        ∧ ((f.inet || f.inet6 || f.packet || f.bluetooth) = true →
            "netfilter" ∈ emitProtocol f ∧ "#net eth0" ∈ emitProtocol f))
    ∧ buildProtocolRun exampleProtFs "/tmp/fj"
      = .ok ["protocol inet,inet6,", "#net eth0", "netfilter"] := by
  refine ⟨?_, emitProtocol_cases, by rfl⟩
  have hrun : buildProtocolFrom protReset fs fname
      = .ok (emitProtocol (finalProtFlags fs content fname)) := by
    unfold buildProtocolFrom
    rw [h]
  have hfl : finalProtFlags fs content fname
      = { unixS := obsB fs content fname .unixS
          inet := obsB fs content fname .inet
          inet6 := obsB fs content fname .inet6
          netlink := obsB fs content fname .netlink
          packet := obsB fs content fname .packet
          bluetooth := obsB fs content fname .bluetooth } := by
    refine ProtFlags.ext ?_ ?_ ?_ ?_ ?_ ?_
    · exact finalProtFlags_get fs content fname .unixS
    · exact finalProtFlags_get fs content fname .inet
    · exact finalProtFlags_get fs content fname .inet6
    · exact finalProtFlags_get fs content fname .netlink
    · exact finalProtFlags_get fs content fname .packet
    · exact finalProtFlags_get fs content fname .bluetooth
  show buildProtocolFrom protReset fs fname = _
  rw [hrun, hfl]

/-- Witness for C1 at the specification's test vector. -/
theorem protocol_output_matches_observations_witness :
    fsLookup exampleProtFs "/tmp/fj"
      = some [String.toList "4:prog:socket AF_INET 0.0.0.0:80"]
    ∧ buildProtocolRun exampleProtFs "/tmp/fj"
      = .ok ["protocol inet,inet6,", "#net eth0", "netfilter"] :=
  ⟨rfl, (protocol_output_matches_observations exampleProtFs "/tmp/fj"
    [String.toList "4:prog:socket AF_INET 0.0.0.0:80"] rfl).2.2⟩

/-! ### C8 — the profile-file sink (corrected: the alternate entry point
performs no already-exists check) -/

theorem hasPfx_append (t rest : List Char) : hasPfx t (t ++ rest) = true := by
  induction t with
  | nil => rfl
  | cons c cs ih => simp [hasPfx, ih]

/-- Stepping main.c's loop over a `--build=<f>` token: existence check,
then writability check, then the sink becomes the file. -/
theorem mainLoopL_build_step (ex bad : List (List Char)) (sink : Sink)
    (f : List Char) (rest : List (List Char)) :
    mainLoopL ex bad sink ((String.toList "--build=" ++ f) :: rest)
      = (if f ∈ ex then .fatal
         else if f ∈ bad then .fatal
         else mainLoopL ex bad (.file f) rest) := by
  have hpfx : hasPfx (String.toList "--build=")
      (String.toList "--build=" ++ f) = true := hasPfx_append _ _
  have hne : ∀ t : List Char, hasPfx (String.toList "--build=") t = false →
      String.toList "--build=" ++ f ≠ t := by
    intro t ht hc
    rw [hc, ht] at hpfx
    exact Bool.noConfusion hpfx
  have hdrop : (String.toList "--build=" ++ f).drop 8 = f := by
    have h8 : (String.toList "--build=").length = 8 := rfl
    rw [← h8, List.drop_left]
  have hdropc : List.drop 8
      ('-' :: '-' :: 'b' :: 'u' :: 'i' :: 'l' :: 'd' :: '=' :: f) = f := rfl
  cases rest with
  | nil => simp [mainLoopL, hasPfx, hdropc]
  | cons b rest2 => simp [mainLoopL, hasPfx, hdropc]

/-- Stepping the alternate entry point's loop over a `--build=<f>` token:
empty-name check, writability check — and no existence check. -/
theorem mainAltLoopL_build_step (bad : List (List Char)) (sink : Sink)
    (hb : Bool) (f : List Char) (rest : List (List Char)) :
    mainAltLoopL bad sink hb ((String.toList "--build=" ++ f) :: rest)
      = (if f = [] then .fatal
         else if f ∈ bad then .fatal
         else mainAltLoopL bad (.file f) true rest) := by
  have hpfx : hasPfx (String.toList "--build=")
      (String.toList "--build=" ++ f) = true := hasPfx_append _ _
  have hne : ∀ t : List Char, hasPfx (String.toList "--build=") t = false →
      String.toList "--build=" ++ f ≠ t := by
    intro t ht hc
    rw [hc, ht] at hpfx
    exact Bool.noConfusion hpfx
  have hdrop : (String.toList "--build=" ++ f).drop 8 = f := by
    have h8 : (String.toList "--build=").length = 8 := rfl
    rw [← h8, List.drop_left]
  have hdropc : List.drop 8
      ('-' :: '-' :: 'b' :: 'u' :: 'i' :: 'l' :: 'd' :: '=' :: f) = f := rfl
  cases rest with
  | nil => simp [mainAltLoopL, hasPfx, hdropc]
  | cons b rest2 => simp [mainAltLoopL, hasPfx, hdropc]

set_option maxHeartbeats 1600000 in
/-- main.c's loop never moves the sink off its starting value unless a
`--build=` token is present. -/
theorem mainLoopL_no_build_sink (ex bad : List (List Char)) :
    ∀ (n : Nat) (args : List (List Char)) (sink : Sink),
    args.length ≤ n →
    (∀ a ∈ args, hasPfx (String.toList "--build=") a = false) →
    ∀ s' prog, mainLoopL ex bad sink args = .run s' prog → s' = sink := by
  intro n
  induction n with
  | zero =>
    intro args sink hlen hnb s' prog hrun
    have hnil : args = [] := List.eq_nil_of_length_eq_zero (Nat.le_zero.mp hlen)
    subst hnil
    exact MainRes.noConfusion hrun
  | succ n ih =>
    intro args sink hlen hnb s' prog hrun
    cases args with
    | nil => exact MainRes.noConfusion hrun
    | cons a rest =>
      have hna : hasPfx (String.toList "--build=") a = false :=
        hnb a (List.mem_cons_self _ _)
      have hnrest : ∀ x ∈ rest, hasPfx (String.toList "--build=") x = false :=
        fun x hx => hnb x (List.mem_cons_of_mem _ hx)
      have hlenr : rest.length ≤ n := by
        simp only [List.length_cons] at hlen
        omega
      revert hrun
      unfold mainLoopL
      split
      · intro hc
        exact MainRes.noConfusion hc
      split
      · exact ih rest sink hlenr hnrest s' prog
      split
      · exact ih rest sink hlenr hnrest s' prog
      split
      · exact ih rest sink hlenr hnrest s' prog
      split
      · rename_i hpfx
        rw [hna] at hpfx
        exact absurd hpfx (by simp)
      split
      · exact ih rest sink hlenr hnrest s' prog
      split
      · cases rest with
        | nil =>
          intro hc
          exact MainRes.noConfusion hc
        | cons b rest2 =>
          refine ih rest2 sink ?_ ?_ s' prog
          · simp only [List.length_cons] at hlenr
            omega
          · exact fun x hx => hnrest x (List.mem_cons_of_mem _ hx)
      split
      · exact ih rest sink hlenr hnrest s' prog
      split
      · cases rest with
        | nil =>
          intro hc
          exact MainRes.noConfusion hc
        | cons b rest2 =>
          refine ih rest2 sink ?_ ?_ s' prog
          · simp only [List.length_cons] at hlenr
            omega
          · exact fun x hx => hnrest x (List.mem_cons_of_mem _ hx)
      split
      · intro hc
        exact MainRes.noConfusion hc
      · intro hc
        exact ((MainRes.run.injEq _ _ _ _).mp hc).1.symm

/-- C8 counterexample: with args `--build=out prog` and a file-system
state where `out` already exists (and is writable), the alternate entry
point (src/unnamed/part_000) does not fail — it proceeds with the existing
path as the sink, because it performs no `access` existence check before
`fopen(.., "w")`, refuting "fails fatally ... if the target path already
exists" for that entry point. -/
theorem alt_main_accepts_existing_target :
    altMainRun [String.toList "out"] []
        [String.toList "--build=out", String.toList "prog"]
      = .run (Sink.file (String.toList "out")) [String.toList "prog"]
    ∧ altMainRun [String.toList "out"] []
        [String.toList "--build=out", String.toList "prog"]
      ≠ .fatal := by
  constructor
  · rfl
  · decide

/-- C8 as amended: in main.c a `--build=<f>` target that already exists
or cannot be opened for writing is fatal during argument parsing —
before `build_profile`, hence before any child process is spawned; in the
alternate entry point (part_000) only an empty or unopenable target is
fatal, an existing writable path is simply taken as the sink (and
truncated); and with no file target the sink stays standard output, whose
document is prefixed by the banner line. -/
theorem profile_sink_fatal_and_banner :
    (∀ ex bad sink f rest, (f ∈ ex ∨ f ∈ bad) →
      mainLoopL ex bad sink ((String.toList "--build=" ++ f) :: rest)
        = .fatal)
    ∧ (∀ bad sink hb f rest, f ≠ [] → f ∉ bad →
      mainAltLoopL bad sink hb ((String.toList "--build=" ++ f) :: rest)
        = mainAltLoopL bad (.file f) true rest)
    ∧ (∀ args ex bad,
        (∀ a ∈ args, hasPfx (String.toList "--build=") a = false) →
        ∀ s' prog, mainLoopL ex bad Sink.stdout args = .run s' prog →
        s' = Sink.stdout)
    ∧ (∀ body, emitDoc Sink.stdout body
        = "--- Built profile begins after this line ---" :: body) := by
  refine ⟨?_, ?_, ?_, fun body => rfl⟩
  · intro ex bad sink f rest h
    rw [mainLoopL_build_step]
    by_cases hex : f ∈ ex
    · rw [if_pos hex]
    · rw [if_neg hex]
      rcases h with h | h
      · exact absurd h hex
      · rw [if_pos h]
  · intro bad sink hb f rest hf hb2
    rw [mainAltLoopL_build_step, if_neg hf, if_neg hb2]
  · intro args ex bad hnb s' prog hrun
    exact mainLoopL_no_build_sink ex bad args.length args Sink.stdout
      (le_refl _) hnb s' prog hrun

/-- Witness for C8's amended theorem: an existing target is fatal for
main.c's loop, and a trace with no build target keeps the stdout sink. -/
theorem profile_sink_fatal_and_banner_witness :
    ((String.toList "out" ∈ [String.toList "out"]
        ∨ String.toList "out" ∈ ([] : List (List Char)))
      ∧ mainLoopL [String.toList "out"] [] Sink.stdout
          ((String.toList "--build=" ++ String.toList "out")
            :: [String.toList "prog"]) = .fatal)
    ∧ ((String.toList "out" ≠ [] ∧ String.toList "out" ∉ ([] : List (List Char)))
      ∧ mainAltLoopL [] Sink.stdout false
          ((String.toList "--build=" ++ String.toList "out")
            :: [String.toList "prog"])
        = mainAltLoopL [] (.file (String.toList "out")) true
            [String.toList "prog"]) :=
  ⟨⟨Or.inl (by decide),
    profile_sink_fatal_and_banner.1 _ _ _ _ _ (Or.inl (by decide))⟩,
   ⟨⟨by decide, by decide⟩,
    profile_sink_fatal_and_banner.2.1 _ _ _ _ _ (by decide) (by decide)⟩⟩
